import Mathlib

/-!
# Verification of the nyse-logos pipeline

A shallow embedding of `src/main.rs` of the `nyse-logos` tool: a TSV parser
(`Tsv::from_str`), the symbol-extraction loop of `pmain`, the per-symbol
asset-fetch task (skip/force policy and response classification), the
semaphore-bounded fan-out phase, and the fatal-error structure of `pmain`
that determines the process exit code.

String primitives (splitting, trimming, case mapping) are modelled by
structural recursion over `List Char` so that every definition evaluates
inside the kernel; ASCII case mapping and whitespace stand in for Rust's
Unicode versions, which agree on the ASCII data this tool handles.
-/

set_option autoImplicit false

namespace NyseLogos

/-! ## String primitives -/

/-- Rust `str::split(sep)`: the empty input yields one empty field, and a
separator at the end yields a trailing empty field. -/
def splitOnChar (sep : Char) : List Char → List (List Char)
  | [] => [[]]
  | c :: cs =>
    if c = sep then [] :: splitOnChar sep cs
    else
      match splitOnChar sep cs with
      | [] => [[c]]
      | f :: fs => (c :: f) :: fs

/-- Rust `str::trim` (whitespace at both ends removed). -/
def trimChars (l : List Char) : List Char :=
  ((l.dropWhile Char.isWhitespace).reverse.dropWhile Char.isWhitespace).reverse

/-- Strip one trailing `'\r'`, as Rust `str::lines` does to each line. -/
def stripCRChars (l : List Char) : List Char :=
  if l.getLast? = some '\r' then l.dropLast else l

/-- Rust `str::lines`: split on `'\n'`, strip one trailing `'\r'` per line,
drop the final empty segment produced by a trailing `'\n'`; the empty string
yields no lines. -/
def rustLines (s : String) : List String :=
  let cs := s.toList
  let parts := (splitOnChar '\n' cs).map stripCRChars
  let parts := if cs.getLast? = some '\n' then parts.dropLast else parts
  if cs = [] then [] else parts.map List.asString

/-- Fields of one line: Rust `line.split('\t').map(|s| s.trim().to_string())`. -/
def splitFields (line : String) : List String :=
  ((splitOnChar '\t' line.toList).map trimChars).map List.asString

/-- Rust `str::to_uppercase` (ASCII case mapping). -/
def rustUpper (s : String) : String := (s.toList.map Char.toUpper).asString

/-- Rust `str::to_lowercase` (ASCII case mapping). -/
def rustLower (s : String) : String := (s.toList.map Char.toLower).asString

/-- Rust `str::trim` on a `String`. -/
def rustTrim (s : String) : String := (trimChars s.toList).asString

/-! ## The `Tsv` structure (main.rs lines 151-183)

A row in the source is a `HashMap<String, String>` built by collecting the
`(headers[i], field_i)` pairs in field order; a later insert for the same key
overwrites an earlier one.  We model a row as the literal list of inserted
pairs and give lookup the "last insert wins" semantics of `HashMap`. -/

abbrev Row := List (String × String)

/-- `HashMap` lookup semantics over the inserted pairs: the value of the
last pair carrying the key, `none` if no pair carries it. -/
def Row.get : Row → String → Option String
  | [], _ => none
  | p :: rest, k =>
    match Row.get rest k with
    | some v => some v
    | none => if p.1 = k then some p.2 else none

/-- The keys inserted into the row (with multiplicity, in insertion order). -/
def Row.keys (r : Row) : List String := r.map Prod.fst

structure Tsv where
  headers : List String
  rows : List Row
  deriving DecidableEq

/-- One data line zipped positionally against the headers:
`(i, v) ↦ (headers[i], v)`.  When the line has more fields than headers,
`headers[i]` in the Rust code is an out-of-bounds index and panics; we model
the panic as an error value. -/
def mkRow (headers : List String) (line : String) : Except String Row :=
  let fields := splitFields line
  if fields.length ≤ headers.length then .ok (headers.zip fields)
  else .error ("index out of bounds: header index in line: " ++ line)

/-- The row-building loop of `Tsv::from_str` (main.rs lines 166-175): build
one row per line, stopping at the first line that makes `headers[i]` panic. -/
def mapRows (headers : List String) : List String → Except String (List Row)
  | [] => .ok []
  | l :: ls =>
    match mkRow headers l with
    | .error e => .error e
    | .ok r =>
      match mapRows headers ls with
      | .error e => .error e
      | .ok rs => .ok (r :: rs)

/-- `Tsv::from_str` (main.rs lines 158-177): first line is the header line,
each later line becomes a row. -/
def Tsv.from_str (s : String) : Except String Tsv :=
  match rustLines s with
  | [] => .error "missing headers"
  | headerLine :: rest =>
    let headers := splitFields headerLine
    match mapRows headers rest with
    | .ok rows => .ok ⟨headers, rows⟩
    | .error e => .error e

/-- Number of tab-separated fields of one raw line. -/
def numFields (line : String) : Nat := (splitFields line).length

/-- `Tsv::find_header_index_case_insensitive` (main.rs lines 179-182). -/
def Tsv.find_header_index_case_insensitive (t : Tsv) (name : String) : Option Nat :=
  let name := rustLower name
  t.headers.findIdx? (fun h => rustLower h = name)

/-! ## Symbol extraction (main.rs lines 72-80)

The loop body of `pmain`, for each row: look up the cell under the resolved
symbol header — `row.get(&tsv.headers[symbol]).ok_or("missing symbol")?`
aborts `pmain` with an error when the cell is absent — then trim and
upper-case it, and skip the row (with a warning) when the normalized value
contains a non-alphanumeric character. -/

/-- Normalization and validity filter applied to one raw symbol cell:
`some` of the trimmed, upper-cased value when it is entirely alphanumeric
(`symbol.chars().all(|c| c.is_alphanumeric())`), `none` (skip with warning)
otherwise. -/
def normalizeCell (raw : String) : Option String :=
  let s := rustUpper (rustTrim raw)
  if s.toList.all Char.isAlphanum then some s else none

/-- The symbol-extraction part of the `pmain` loop: emits the normalized
symbols of valid rows in row order, skips non-alphanumeric ones, and fails
the whole run with `"missing symbol"` on the first row whose cell under
`headers[symIdx]` is absent. -/
def extractSymbols (headers : List String) (symIdx : Nat) : List Row → Except String (List String)
  | [] => .ok []
  | r :: rs =>
    match Row.get r (headers.getD symIdx "") with
    | none => .error "missing symbol"
    | some raw =>
      match extractSymbols headers symIdx rs with
      | .error e => .error e
      | .ok rest =>
        match normalizeCell raw with
        | some s => .ok (s :: rest)
        | none => .ok rest

/-! ## The per-symbol asset-fetch task (main.rs lines 82-135)

The skip/force check runs before the task is spawned: with `force` unset and
the destination file present, the symbol is skipped with no task, no permit
and no request.  Otherwise the spawned task acquires a permit, sends the
request and classifies the response.  The network and filesystem are
modelled as an environment the task reads. -/

/-- Reasons a fetch task can fail (the spec's error taxonomy). -/
inductive FailReason
  | TransportError
  | HttpStatus (code : Nat)
  | IoError
  deriving DecidableEq

/-- Terminal outcome of one per-symbol task. -/
inductive Outcome
  | Success
  | Skipped
  | Failed (r : FailReason)
  deriving DecidableEq

/-- Result of `client.get(url).send().await`: a transport error, or a
response carrying a status code and a body that `res.text().await` either
reads or fails on. -/
inductive SendResult
  | transportErr
  | response (status : Nat) (body : Except Unit String)

/-- What the environment answers to this one task: the send result and
whether `tokio::fs::write` of the body succeeds. -/
structure FetchEnv where
  send : SendResult
  writeOk : Bool

/-- `reqwest::StatusCode::is_success`: any 2xx status. -/
def isSuccessStatus (code : Nat) : Bool := 200 ≤ code && code < 300

/-- The spawned task body after the permit is held (main.rs lines 102-134):
classify the send result and, on a 2xx status with a readable body, write
that body to the destination.  Returns the outcome together with the
content written to the destination file (`none` when nothing was written). -/
def fetchAndClassify (env : FetchEnv) : Outcome × Option String :=
  match env.send with
  | .transportErr => (.Failed .TransportError, none)
  | .response st body =>
    if isSuccessStatus st then
      match body with
      | .error _ => (.Failed .TransportError, none)
      | .ok content =>
        if env.writeOk then (.Success, some content)
        else (.Failed .IoError, none)
    else (.Failed (.HttpStatus st), none)

/-- The whole per-symbol unit of work (main.rs lines 84-135): the
skip-if-exists check, then the spawned fetch task.  Besides the outcome and
written content it records whether a permit was ever acquired and whether a
network request was ever issued. -/
structure TaskResult where
  outcome : Outcome
  written : Option String
  permitAcquired : Bool
  requested : Bool

def runTask (force fileExists : Bool) (env : FetchEnv) : TaskResult :=
  if !force && fileExists then
    { outcome := .Skipped, written := none, permitAcquired := false, requested := false }
  else
    let (o, w) := fetchAndClassify env
    { outcome := o, written := w, permitAcquired := true, requested := true }

/-! ## The upstream phase and the exit code (main.rs lines 27-149, 185-191)

`pmain` runs the strictly sequential upstream phase — table fetch, parse,
TOML write, symbol-column resolution, and the per-row symbol-cell lookups of
the extraction loop — and every `?` in it aborts the run.  The spawned
tasks' outcomes are never read (`while join_set.join_next().await.is_some()
{}` discards them), so they cannot reach the exit code.  `main` exits 1
exactly when `pmain` returns an error. -/

/-- Environment of one whole run: the result of fetching the upstream table
text (`send` + `text`, collapsed into one fallible step), the result of the
TOML serialize-and-write step, and the per-task fetch environments (which
`pmain`'s error path never reads). -/
structure RunEnv where
  tableFetch : Except String String
  tomlWrite : Except String Unit
  assetEnvs : List FetchEnv

/-- The fallible skeleton of `pmain`: every upstream `?` in order.  The
asset-fetch fan-out contributes nothing here — task results are discarded
at the join barrier. -/
def pmainResult (env : RunEnv) : Except String Unit :=
  match env.tableFetch with
  | .error e => .error e
  | .ok content =>
    match Tsv.from_str content with
    | .error e => .error e
    | .ok tsv =>
      match env.tomlWrite with
      | .error e => .error e
      | .ok _ =>
        match tsv.find_header_index_case_insensitive "symbol" with
        | none => .error "NYSE data is missing 'symbol' column"
        | some symIdx =>
          match extractSymbols tsv.headers symIdx tsv.rows with
          | .error e => .error e
          | .ok _ => .ok ()

/-- `main` (main.rs lines 185-191): exit 1 on `Err`, 0 otherwise. -/
def exitCode (env : RunEnv) : Nat :=
  match pmainResult env with
  | .ok _ => 0
  | .error _ => 1

/-- The four upstream failure causes named by the spec: table fetch, parse,
table write, and mandatory symbol-column resolution. -/
def upstreamFails (env : RunEnv) : Bool :=
  match env.tableFetch with
  | .error _ => true
  | .ok content =>
    match Tsv.from_str content with
    | .error _ => true
    | .ok tsv =>
      !env.tomlWrite.isOk
        || (tsv.find_header_index_case_insensitive "symbol").isNone

/-- The upstream failure causes as the code implements them: the four of
`upstreamFails` plus the per-row symbol-cell lookup of the extraction loop
(`.ok_or("missing symbol")?`). -/
def upstreamFailsFull (env : RunEnv) : Bool :=
  match env.tableFetch with
  | .error _ => true
  | .ok content =>
    match Tsv.from_str content with
    | .error _ => true
    | .ok tsv =>
      !env.tomlWrite.isOk
        || match tsv.find_header_index_case_insensitive "symbol" with
           | none => true
           | some symIdx => !(extractSymbols tsv.headers symIdx tsv.rows).isOk

/-- A run whose upstream table text arrives and parses, whose TOML write
succeeds and whose symbol column resolves, but whose single data row is too
short to carry a cell under the `symbol` header. -/
def envMissingCell : RunEnv := ⟨.ok "name\tsymbol\nfoo", .ok (), []⟩

/-! ## The fan-out phase as a transition system (main.rs lines 69-144)

`pmain` creates `Semaphore::new(jobs)` and spawns one task per non-skipped
symbol.  Each task first awaits `semaphore.acquire()`; the permit is bound
to `_permit` and dropped — released back to the semaphore — when the task
body completes, whichever of the early-`return` or fall-through paths it
takes.  We model the phase as an interleaving transition system: each task
is `waiting` (spawned, not yet past `acquire`), `holding` (between permit
acquisition and permit release, i.e. inside the fetch+write critical
section), or `finished`; the semaphore is its count of free permits.
A task may acquire only when a permit is free, and its terminal step —
parametrized by the outcome its fetch environment produces, so every exit
path of the task body is one instance — always returns the permit. -/

inductive Phase
  | waiting
  | holding
  | finished
  deriving DecidableEq

/-- Global state of the fan-out phase: one `Phase` per spawned task plus the
semaphore's free-permit count. -/
structure PoolState where
  tasks : List Phase
  permits : Nat
  deriving DecidableEq

/-- Number of tasks currently inside the fetch+write critical section. -/
def countHolding (ts : List Phase) : Nat := ts.countP (fun p => p = Phase.holding)

/-- Interleaving steps of the fan-out phase.  `acquire` is
`semaphore.acquire().await` succeeding (it suspends — takes no step — while
`permits = 0`); `complete` is the task body reaching its end on any exit
path, classified by `fetchAndClassify`, at which point the `_permit` binding
is dropped and the permit returns to the semaphore. -/
inductive PoolStep : PoolState → PoolState → Prop
  | acquire (s : PoolState) (i : Nat) (hi : s.tasks[i]? = some Phase.waiting)
      (hp : 0 < s.permits) :
      PoolStep s ⟨s.tasks.set i Phase.holding, s.permits - 1⟩
  | complete (s : PoolState) (i : Nat) (env : FetchEnv)
      (hi : s.tasks[i]? = some Phase.holding) :
      PoolStep s ⟨s.tasks.set i Phase.finished, s.permits + 1⟩

/-- Start of the fan-out phase: `n` spawned tasks, none past `acquire`, and
a fresh `Semaphore::new(J)`. -/
def initPool (J n : Nat) : PoolState := ⟨List.replicate n Phase.waiting, J⟩

/-- States the fan-out phase can reach from its start. -/
inductive PoolReachable (J n : Nat) : PoolState → Prop
  | init : PoolReachable J n (initPool J n)
  | step {s s' : PoolState} : PoolReachable J n s → PoolStep s s' → PoolReachable J n s'

/-! ## Helper lemmas -/

theorem rowGet_eq_none_of_not_mem (r : Row) (k : String) (h : k ∉ Row.keys r) :
    Row.get r k = none := by
  induction r with
  | nil => rfl
  | cons p rest ih =>
    simp only [Row.keys, List.map_cons, List.mem_cons, not_or] at h
    have hr := ih h.2
    simp only [Row.get, hr]
    exact if_neg fun hc => h.1 hc.symm

/-- `Row.get` returns the value stored at the last position carrying the
key: `HashMap` collect semantics, where a later insert overwrites. -/
theorem rowGet_last (r : Row) (k : String) (i : Nat)
    (hik : (Row.keys r)[i]? = some k)
    (hlast : ∀ j, i < j → (Row.keys r)[j]? ≠ some k) :
    Row.get r k = (r.map Prod.snd)[i]? := by
  induction r generalizing i with
  | nil => simp [Row.keys] at hik
  | cons p rest ih =>
    cases i with
    | zero =>
      have hk : p.1 = k := by
        simpa [Row.keys] using hik
      have hnot : k ∉ Row.keys rest := by
        intro hmem
        obtain ⟨j, hjk⟩ := List.getElem?_of_mem hmem
        exact hlast (j + 1) (Nat.succ_pos j) (by simpa [Row.keys] using hjk)
      have hr := rowGet_eq_none_of_not_mem rest k hnot
      show (match Row.get rest k with
        | some v => some v
        | none => if p.1 = k then some p.2 else none) = (List.map Prod.snd (p :: rest))[0]?
      rw [hr, if_pos hk]
      simp
    | succ j =>
      have hik' : (Row.keys rest)[j]? = some k := by simpa [Row.keys] using hik
      have hlast' : ∀ m, j < m → (Row.keys rest)[m]? ≠ some k := by
        intro m hm
        have := hlast (m + 1) (Nat.succ_lt_succ hm)
        simpa [Row.keys] using this
      have hget := ih j hik' hlast'
      have hj : j < rest.length := by
        have hlen : j < (Row.keys rest).length := by
          by_contra hc
          push_neg at hc
          rw [List.getElem?_eq_none hc] at hik'
          exact Option.noConfusion hik'
        simpa [Row.keys] using hlen
      have hj' : j < (rest.map Prod.snd).length := by simpa using hj
      have hv : Row.get rest k = some (rest.map Prod.snd)[j] := by
        rw [hget]; exact List.getElem?_eq_getElem hj'
      show (match Row.get rest k with
        | some v => some v
        | none => if p.1 = k then some p.2 else none) = (List.map Prod.snd (p :: rest))[j + 1]?
      rw [hv]
      simp [← hget, hv]

/-- When every line fits inside the header list, the row loop succeeds and
produces exactly the positional zips. -/
theorem mapRows_ok (headers : List String) (D : List String)
    (h : ∀ d ∈ D, (splitFields d).length ≤ headers.length) :
    mapRows headers D = .ok (D.map (fun d => headers.zip (splitFields d))) := by
  induction D with
  | nil => rfl
  | cons l ls ih =>
    have hl := h l (List.mem_cons_self l ls)
    have hls : ∀ d ∈ ls, (splitFields d).length ≤ headers.length :=
      fun d hd => h d (List.mem_cons_of_mem l hd)
    simp [mapRows, mkRow, hl, ih hls]

/-- A list with a repeated element has strictly fewer distinct elements
than positions. -/
theorem toFinset_card_lt_of_not_nodup (l : List String) (h : ¬ l.Nodup) :
    l.toFinset.card < l.length := by
  rw [List.card_toFinset]
  have hsub : l.dedup.Sublist l := List.dedup_sublist l
  have hle : l.dedup.length ≤ l.length := hsub.length_le
  rcases Nat.lt_or_ge l.dedup.length l.length with hlt | hge
  · exact hlt
  · exfalso
    have : l.dedup = l := hsub.eq_of_length (Nat.le_antisymm hle hge)
    exact h (this ▸ l.nodup_dedup)

theorem countHolding_replicate (n : Nat) : countHolding (List.replicate n Phase.waiting) = 0 := by
  induction n with
  | zero => rfl
  | succ m ih =>
    rw [List.replicate_succ]
    simp only [countHolding, List.countP_cons] at ih ⊢
    simp [ih]

theorem countHolding_set (ts : List Phase) (i : Nat) (a b : Phase)
    (h : ts[i]? = some a) :
    countHolding (ts.set i b) + (if a = Phase.holding then 1 else 0) =
      countHolding ts + (if b = Phase.holding then 1 else 0) := by
  induction ts generalizing i with
  | nil => simp at h
  | cons x xs ih =>
    cases i with
    | zero =>
      rw [List.getElem?_cons_zero] at h
      obtain rfl : x = a := by injection h
      simp only [List.set, countHolding, List.countP_cons, decide_eq_true_eq]
      split_ifs <;> omega
    | succ j =>
      rw [List.getElem?_cons_succ] at h
      have hrec := ih j h
      simp only [List.set, countHolding, List.countP_cons, decide_eq_true_eq] at hrec ⊢
      split_ifs at hrec ⊢ <;> omega

theorem countHolding_eq_zero_of_finished (ts : List Phase)
    (h : ∀ p ∈ ts, p = Phase.finished) : countHolding ts = 0 := by
  rw [countHolding, List.countP_eq_zero]
  intro p hp
  simp [h p hp]

/-- Successful parse shape: when every data line fits inside the header
list, `Tsv::from_str` returns the headers and the positionally zipped
rows. -/
theorem from_str_ok_of_le (s H : String) (D : List String)
    (hlines : rustLines s = H :: D)
    (hle : ∀ d ∈ D, (splitFields d).length ≤ (splitFields H).length) :
    Tsv.from_str s =
      .ok ⟨splitFields H, D.map (fun d => (splitFields H).zip (splitFields d))⟩ := by
  simp only [Tsv.from_str, hlines, mapRows_ok _ _ hle]

/-- A cell the normalization filter lets through is entirely
alphanumeric. -/
theorem normalizeCell_alphanum {raw sym : String} (h : normalizeCell raw = some sym) :
    sym.toList.all Char.isAlphanum = true := by
  unfold normalizeCell at h
  by_cases hc : (rustUpper (rustTrim raw)).toList.all Char.isAlphanum = true
  · rw [if_pos hc] at h
    injection h with h
    exact h ▸ hc
  · rw [if_neg hc] at h
    exact Option.noConfusion h

/-- When every row's cell under the symbol header is present, the
extraction loop succeeds and emits exactly the normalized values of the
rows the filter accepts, in row order. -/
theorem extractSymbols_ok_of_present (headers : List String) (symIdx : Nat)
    (rows : List Row)
    (h : ∀ r ∈ rows, (Row.get r (headers.getD symIdx "")).isSome = true) :
    extractSymbols headers symIdx rows =
      .ok (rows.filterMap (fun r => (Row.get r (headers.getD symIdx "")).bind normalizeCell)) := by
  induction rows with
  | nil => rfl
  | cons r rs ih =>
    have hr := h r (List.mem_cons_self r rs)
    have hrs := ih (fun r' hr' => h r' (List.mem_cons_of_mem r hr'))
    obtain ⟨raw, hraw⟩ := Option.isSome_iff_exists.mp hr
    simp only [extractSymbols, hraw, hrs, List.filterMap_cons, Option.bind]
    cases hn : normalizeCell raw <;> simp [hn]

/-- A row whose cell under the symbol header is absent makes the
extraction loop fail with `"missing symbol"`. -/
theorem extractSymbols_error_of_absent (headers : List String) (symIdx : Nat)
    (rows : List Row)
    (h : ∃ r ∈ rows, Row.get r (headers.getD symIdx "") = none) :
    extractSymbols headers symIdx rows = .error "missing symbol" := by
  induction rows with
  | nil => obtain ⟨r, hr, _⟩ := h; cases hr
  | cons r rs ih =>
    cases hget : Row.get r (headers.getD symIdx "") with
    | none => simp only [extractSymbols, hget]
    | some raw =>
      obtain ⟨r', hr', habs⟩ := h
      rcases List.mem_cons.mp hr' with rfl | hmem
      · rw [habs] at hget
        exact Option.noConfusion hget
      · have hrec := ih ⟨r', hmem, habs⟩
        simp only [extractSymbols, hget, hrec]

/-- Every symbol the extraction loop emits passed the alphanumeric
filter. -/
theorem extractSymbols_mem_alphanum (headers : List String) (symIdx : Nat)
    (rows : List Row) (syms : List String)
    (h : extractSymbols headers symIdx rows = .ok syms) :
    ∀ sym ∈ syms, sym.toList.all Char.isAlphanum = true := by
  induction rows generalizing syms with
  | nil =>
    obtain rfl : ([] : List String) = syms := by
      simpa [extractSymbols] using h
    intro sym hmem
    cases hmem
  | cons r rs ih =>
    intro sym hmem
    cases hget : Row.get r (headers.getD symIdx "") with
    | none =>
      simp only [extractSymbols, hget] at h
      exact Except.noConfusion h
    | some raw =>
      cases hrec : extractSymbols headers symIdx rs with
      | error e =>
        simp only [extractSymbols, hget, hrec] at h
        exact Except.noConfusion h
      | ok rest =>
        cases hn : normalizeCell raw with
        | none =>
          simp only [extractSymbols, hget, hrec, hn, Except.ok.injEq] at h
          subst h
          exact ih rest hrec sym hmem
        | some sval =>
          simp only [extractSymbols, hget, hrec, hn, Except.ok.injEq] at h
          subst h
          rcases List.mem_cons.mp hmem with rfl | hmem'
          · exact normalizeCell_alphanum hn
          · exact ih rest hrec sym hmem'

/-- The semaphore invariant: free permits plus tasks inside the critical
section always equals the configured capacity. -/
theorem pool_invariant {J n : Nat} {s : PoolState} (h : PoolReachable J n s) :
    s.permits + countHolding s.tasks = J := by
  induction h with
  | init => simp [initPool, countHolding_replicate]
  | step hr hs ih =>
    rename_i s s'
    cases hs with
    | acquire i hi hp =>
      have hcs := countHolding_set s.tasks i Phase.waiting Phase.holding hi
      simp at hcs
      show s.permits - 1 + countHolding (s.tasks.set i Phase.holding) = _
      omega
    | complete i env hi =>
      have hcs := countHolding_set s.tasks i Phase.holding Phase.finished hi
      simp at hcs
      show s.permits + 1 + countHolding (s.tasks.set i Phase.finished) = _
      omega

/-! ## Claims -/

/-- C3: evaluation at the failing input `"A\tB\nx"`, whose data line has
fewer fields than the header line.  `Tsv::from_str` does not return a
`MalformedInput`-style error identifying the offending line: it succeeds
and silently produces a partial row, whose cell under header `"B"` is
absent. -/
theorem short_row_silently_partial :
    Tsv.from_str "A\tB\nx" = .ok ⟨["A", "B"], [[("A", "x")]]⟩ ∧
    Row.get [("A", "x")] "B" = none :=
  ⟨rfl, rfl⟩

/-- C5: for every well-formed tab-delimited input — header line `H` with
distinct trimmed field names followed by `N` data lines each carrying
exactly as many fields as `H` — `Tsv::from_str` succeeds with `len(H)`
headers, `N` rows, and every row's key set equal to the header set. -/
theorem parse_wellformed_shape (s H : String) (D : List String)
    (hlines : rustLines s = H :: D)
    (_hnd : (splitFields H).Nodup)
    (hwf : ∀ d ∈ D, numFields d = numFields H) :
    ∃ t : Tsv, Tsv.from_str s = .ok t ∧
      t.headers = splitFields H ∧
      t.headers.length = numFields H ∧
      t.rows.length = D.length ∧
      ∀ r ∈ t.rows, (Row.keys r).toFinset = t.headers.toFinset := by
  have hle : ∀ d ∈ D, (splitFields d).length ≤ (splitFields H).length :=
    fun d hd => le_of_eq (hwf d hd)
  refine ⟨⟨splitFields H, D.map (fun d => (splitFields H).zip (splitFields d))⟩,
    from_str_ok_of_le s H D hlines hle, rfl, rfl, by simp, ?_⟩
  intro r hr
  simp only [List.mem_map] at hr
  obtain ⟨d, hd, rfl⟩ := hr
  have hkeys : Row.keys ((splitFields H).zip (splitFields d)) = splitFields H :=
    List.map_fst_zip _ _ (le_of_eq (hwf d hd).symm)
  rw [hkeys]

/-- C5 witness: a concrete two-column, one-row well-formed input. -/
theorem parse_wellformed_shape_witness :
    ∃ t : Tsv, Tsv.from_str "symbol\tname\nAAPL\tApple" = .ok t ∧
      t.headers = splitFields "symbol\tname" ∧
      t.headers.length = numFields "symbol\tname" ∧
      t.rows.length = ["AAPL\tApple"].length ∧
      ∀ r ∈ t.rows, (Row.keys r).toFinset = t.headers.toFinset :=
  parse_wellformed_shape "symbol\tname\nAAPL\tApple" "symbol\tname" ["AAPL\tApple"]
    (by decide) (by decide) (by decide)

/-- C10 counterexample: on the duplicated header line `"a\ta"` with the
longer data line `"x\ty\tz"`, parse fails (the Rust `headers[i]` index
panics), refuting "parse does not fail" as stated for every input with a
duplicated header. -/
theorem dup_headers_parse_can_fail :
    ¬ (splitFields "a\ta").Nodup ∧ (Tsv.from_str "a\ta\nx\ty\tz").isOk = false :=
  ⟨by decide, rfl⟩

/-- C10 (amended): for every input whose header line contains the same
(case-sensitive) name at two or more positions and whose data lines each
carry exactly as many fields as the header line, parse does not fail; each
row's mapping retains only the value from the last duplicated column
position (lookups return the value stored at the key's last position), so
the row's key set is strictly smaller than the header list and rows
silently lose the earlier duplicated columns' values. -/
theorem dup_headers_last_value_wins (s H : String) (D : List String)
    (hlines : rustLines s = H :: D)
    (hdup : ¬ (splitFields H).Nodup)
    (hwf : ∀ d ∈ D, numFields d = numFields H) :
    ∃ t : Tsv, Tsv.from_str s = .ok t ∧
      ∀ r ∈ t.rows,
        (Row.keys r).toFinset.card < t.headers.length ∧
        ∀ (k : String) (i : Nat), (Row.keys r)[i]? = some k →
          (∀ j, i < j → (Row.keys r)[j]? ≠ some k) →
          Row.get r k = (r.map Prod.snd)[i]? := by
  have hle : ∀ d ∈ D, (splitFields d).length ≤ (splitFields H).length :=
    fun d hd => le_of_eq (hwf d hd)
  refine ⟨⟨splitFields H, D.map (fun d => (splitFields H).zip (splitFields d))⟩,
    from_str_ok_of_le s H D hlines hle, ?_⟩
  intro r hr
  simp only [List.mem_map] at hr
  obtain ⟨d, hd, rfl⟩ := hr
  have hkeys : Row.keys ((splitFields H).zip (splitFields d)) = splitFields H :=
    List.map_fst_zip _ _ (le_of_eq (hwf d hd).symm)
  constructor
  · rw [hkeys]
    exact toFinset_card_lt_of_not_nodup _ hdup
  · intro k i hik hlast
    exact rowGet_last _ k i hik hlast

/-- C10 witness: header line `"a\ta"`, one data line `"x\ty"`; the lookup
under `"a"` returns `"y"`, the value at the last duplicated position. -/
theorem dup_headers_last_value_wins_witness :
    (∃ t : Tsv, Tsv.from_str "a\ta\nx\ty" = .ok t ∧
      ∀ r ∈ t.rows,
        (Row.keys r).toFinset.card < t.headers.length ∧
        ∀ (k : String) (i : Nat), (Row.keys r)[i]? = some k →
          (∀ j, i < j → (Row.keys r)[j]? ≠ some k) →
          Row.get r k = (r.map Prod.snd)[i]?) ∧
    Row.get [("a", "x"), ("a", "y")] "a" = some "y" :=
  ⟨dup_headers_last_value_wins "a\ta\nx\ty" "a\ta" ["x\ty"]
    (by decide) (by decide) (by decide), rfl⟩

/-- C4 counterexample: a row whose cell at the resolved symbol index is
absent is not skipped with a warning — the extraction loop raises the
`"missing symbol"` error (which aborts the whole run through `pmain`'s
`?`), and the remaining valid row's symbol is not emitted. -/
theorem absent_cell_raises_error :
    extractSymbols ["symbol"] 0 [[], [("symbol", "aapl")]] = .error "missing symbol" :=
  rfl

/-- C4 (amended): given a resolved symbol-column index and a table, the
extraction loop emits the normalized symbols of the valid rows in row
order, skipping (with a warning, not an error) only rows whose normalized
value fails the alphanumeric filter; a row whose cell at that index is
absent instead fails the extraction — and with it the whole run — with the
`"missing symbol"` error. -/
theorem extraction_emits_valid_rows_in_order (headers : List String) (symIdx : Nat)
    (rows : List Row) :
    ((∀ r ∈ rows, (Row.get r (headers.getD symIdx "")).isSome = true) →
      extractSymbols headers symIdx rows =
        .ok (rows.filterMap (fun r => (Row.get r (headers.getD symIdx "")).bind normalizeCell))) ∧
    ((∃ r ∈ rows, Row.get r (headers.getD symIdx "") = none) →
      extractSymbols headers symIdx rows = .error "missing symbol") :=
  ⟨extractSymbols_ok_of_present headers symIdx rows,
   extractSymbols_error_of_absent headers symIdx rows⟩

/-- C4 witness: rows with all cells present emit `["AAPL"]` (the
non-alphanumeric `"brk.b"` row is skipped); a row without the cell turns
the extraction into the `"missing symbol"` error. -/
theorem extraction_emits_valid_rows_in_order_witness :
    extractSymbols ["symbol"] 0 [[("symbol", " aapl ")], [("symbol", "brk.b")]] = .ok ["AAPL"] ∧
    extractSymbols ["symbol"] 0 [[("name", "foo")]] = .error "missing symbol" := by
  constructor
  · have hok := (extraction_emits_valid_rows_in_order ["symbol"] 0
      [[("symbol", " aapl ")], [("symbol", "brk.b")]]).1 (by decide)
    rw [hok]
    rfl
  · exact (extraction_emits_valid_rows_in_order ["symbol"] 0 [[("name", "foo")]]).2
      ⟨[("name", "foo")], by decide, by decide⟩

/-- C6: a symbol cell whose value after trimming and upper-casing contains
a non-alphanumeric character is omitted from the emitted sequence (the skip
is reported as a warning naming the value), and otherwise the trimmed,
upper-cased value is emitted; `" brk.b "` is skipped while `" aapl "` is
emitted as `"AAPL"`; every symbol the extraction emits is
alphanumeric-only. -/
theorem symbol_normalization_and_filter :
    (∀ raw : String, (rustUpper (rustTrim raw)).toList.all Char.isAlphanum = false →
      normalizeCell raw = none) ∧
    (∀ raw : String, (rustUpper (rustTrim raw)).toList.all Char.isAlphanum = true →
      normalizeCell raw = some (rustUpper (rustTrim raw))) ∧
    normalizeCell " brk.b " = none ∧
    normalizeCell " aapl " = some "AAPL" ∧
    ∀ (headers : List String) (symIdx : Nat) (rows : List Row) (syms : List String),
      extractSymbols headers symIdx rows = .ok syms →
      ∀ sym ∈ syms, sym.toList.all Char.isAlphanum = true := by
  refine ⟨?_, ?_, by decide, by decide, extractSymbols_mem_alphanum⟩
  · intro raw h
    unfold normalizeCell
    have hc : ¬ ((rustUpper (rustTrim raw)).toList.all Char.isAlphanum = true) := by
      rw [h]
      exact Bool.false_ne_true
    rw [if_neg hc]
  · intro raw h
    unfold normalizeCell
    rw [if_pos h]

/-- C6 witness: the two implications applied at `" brk.b "` and
`" aapl "`, and the alphanumeric invariant applied to a concrete
extraction. -/
theorem symbol_normalization_and_filter_witness :
    normalizeCell " brk.b " = none ∧
    normalizeCell " aapl " = some (rustUpper (rustTrim " aapl ")) ∧
    "AAPL".toList.all Char.isAlphanum = true :=
  ⟨symbol_normalization_and_filter.1 " brk.b " (by decide),
   symbol_normalization_and_filter.2.1 " aapl " (by decide),
   symbol_normalization_and_filter.2.2.2.2 ["symbol"] 0 [[("symbol", " aapl ")]] ["AAPL"]
     rfl "AAPL" (by decide)⟩

/-- C7: with `force` unset and the destination file already present the
symbol's task ends `Skipped` — no permit acquired, no network request, no
write — which is why a second run over an already-populated directory
issues no request for those symbols; with `force` set the request is always
issued regardless of the existing file, and a successful fetch overwrites
it with the fetched body. -/
theorem skip_existing_and_force_refetch (force fileExists : Bool) (env : FetchEnv) :
    (force = false → fileExists = true →
      runTask force fileExists env =
        { outcome := .Skipped, written := none, permitAcquired := false, requested := false }) ∧
    (force = true →
      (runTask force fileExists env).requested = true ∧
      (runTask force fileExists env).permitAcquired = true ∧
      ∀ (st : Nat) (content : String),
        env.send = .response st (.ok content) → isSuccessStatus st = true →
        env.writeOk = true → (runTask force fileExists env).written = some content) := by
  constructor
  · rintro rfl rfl
    rfl
  · rintro rfl
    refine ⟨rfl, rfl, ?_⟩
    intro st content hsend hst hw
    simp [runTask, fetchAndClassify, hsend, hst, hw]

/-- C7 witness: a skip at `force = false` over an existing file, and a
forced refetch whose 200-status body is written. -/
theorem skip_existing_and_force_refetch_witness :
    runTask false true ⟨.transportErr, true⟩ =
      { outcome := .Skipped, written := none, permitAcquired := false, requested := false } ∧
    (runTask true true ⟨.response 200 (.ok "<svg/>"), true⟩).written = some "<svg/>" :=
  ⟨(skip_existing_and_force_refetch false true ⟨.transportErr, true⟩).1 rfl rfl,
   ((skip_existing_and_force_refetch true true ⟨.response 200 (.ok "<svg/>"), true⟩).2 rfl).2.2
     200 "<svg/>" rfl (by decide) rfl⟩

/-- C8: classification of one fetch: transport error →
`Failed(TransportError)`; non-2xx status → `Failed(HttpStatus(code))` with
nothing written; 2xx status with a body-read error → `Failed(TransportError)`;
2xx with a readable body → the body is written as received to the
destination, `Failed(IoError)` when the write fails and `Success`
otherwise. -/
theorem response_classification (env : FetchEnv) :
    (env.send = .transportErr →
      fetchAndClassify env = (.Failed .TransportError, none)) ∧
    (∀ (st : Nat) (body : Except Unit String),
      env.send = .response st body → isSuccessStatus st = false →
      fetchAndClassify env = (.Failed (.HttpStatus st), none)) ∧
    (∀ (st : Nat) (e : Unit),
      env.send = .response st (.error e) → isSuccessStatus st = true →
      fetchAndClassify env = (.Failed .TransportError, none)) ∧
    (∀ (st : Nat) (content : String),
      env.send = .response st (.ok content) → isSuccessStatus st = true →
      (env.writeOk = false → fetchAndClassify env = (.Failed .IoError, none)) ∧
      (env.writeOk = true → fetchAndClassify env = (.Success, some content))) := by
  refine ⟨?_, ?_, ?_, ?_⟩
  · intro hsend
    simp only [fetchAndClassify, hsend]
  · intro st body hsend hst
    simp only [fetchAndClassify, hsend, hst, Bool.false_eq_true, if_false]
  · intro st e hsend hst
    simp only [fetchAndClassify, hsend, hst, if_true]
  · intro st content hsend hst
    constructor
    · intro hw
      simp only [fetchAndClassify, hsend, hst, if_true, hw, Bool.false_eq_true, if_false]
    · intro hw
      simp only [fetchAndClassify, hsend, hst, if_true, hw]

/-- C8 witness: the four classification cases at concrete environments:
a transport error, a 404, a 200 with unreadable body, and a 200 whose body
is written (plus the failing-write variant). -/
theorem response_classification_witness :
    fetchAndClassify ⟨.transportErr, true⟩ = (.Failed .TransportError, none) ∧
    fetchAndClassify ⟨.response 404 (.ok "x"), true⟩ = (.Failed (.HttpStatus 404), none) ∧
    fetchAndClassify ⟨.response 200 (.error ()), true⟩ = (.Failed .TransportError, none) ∧
    fetchAndClassify ⟨.response 200 (.ok "x"), false⟩ = (.Failed .IoError, none) ∧
    fetchAndClassify ⟨.response 200 (.ok "x"), true⟩ = (.Success, some "x") :=
  ⟨(response_classification ⟨.transportErr, true⟩).1 rfl,
   (response_classification ⟨.response 404 (.ok "x"), true⟩).2.1 404 (.ok "x") rfl (by decide),
   (response_classification ⟨.response 200 (.error ()), true⟩).2.2.1 200 () rfl (by decide),
   ((response_classification ⟨.response 200 (.ok "x"), false⟩).2.2.2 200 "x" rfl (by decide)).1 rfl,
   ((response_classification ⟨.response 200 (.ok "x"), true⟩).2.2.2 200 "x" rfl (by decide)).2 rfl⟩

/-- C2 counterexample: a run whose table fetch, parse, TOML write and
symbol-column resolution all succeed still exits non-zero, because one row
is too short to carry a cell under the `symbol` header and the extraction
loop's `.ok_or("missing symbol")?` aborts `pmain`.  So "exits non-zero only
if table fetch, parse, table write or symbol-column resolution fails" is
refuted at this input. -/
theorem exit_nonzero_without_named_upstream_failure :
    exitCode envMissingCell = 1 ∧ upstreamFails envMissingCell = false :=
  ⟨rfl, rfl⟩

/-- C2 (amended): the process exits non-zero iff the sequential upstream
phase fails, where the upstream failure causes are table fetch, parse,
table write, mandatory symbol-column resolution, or a per-row symbol-cell
lookup in the extraction loop; the per-symbol asset outcomes are never
re-raised past their task boundary and never affect the exit code. -/
theorem exit_code_characterization (env : RunEnv) :
    (exitCode env = 1 ↔ upstreamFailsFull env = true) ∧
    (∀ a₁ a₂ : List FetchEnv,
      exitCode { env with assetEnvs := a₁ } = exitCode { env with assetEnvs := a₂ }) := by
  constructor
  · obtain ⟨tf, tw, ae⟩ := env
    cases tf with
    | error e => simp [exitCode, pmainResult, upstreamFailsFull]
    | ok content =>
      cases hfs : Tsv.from_str content with
      | error e => simp [exitCode, pmainResult, upstreamFailsFull, hfs]
      | ok tsv =>
        cases tw with
        | error e => simp [exitCode, pmainResult, upstreamFailsFull, hfs, Except.isOk, Except.toBool]
        | ok u =>
          cases hfh : tsv.find_header_index_case_insensitive "symbol" with
          | none => simp [exitCode, pmainResult, upstreamFailsFull, hfs, hfh, Except.isOk, Except.toBool]
          | some symIdx =>
            cases hex : extractSymbols tsv.headers symIdx tsv.rows with
            | error e =>
              simp [exitCode, pmainResult, upstreamFailsFull, hfs, hfh, hex, Except.isOk, Except.toBool]
            | ok syms =>
              simp [exitCode, pmainResult, upstreamFailsFull, hfs, hfh, hex, Except.isOk, Except.toBool]
  · intro a₁ a₂
    rfl

/-- C1: during the fan-out phase of a run configured with job count
`J ≥ 1`, every reachable state has at most `J` tasks simultaneously inside
the fetch+write critical section (between permit acquisition and permit
release) — the bound is never exceeded, even transiently. -/
theorem concurrency_bound (J n : Nat) (s : PoolState) (_hJ : 1 ≤ J)
    (h : PoolReachable J n s) : countHolding s.tasks ≤ J := by
  have hinv := pool_invariant h
  omega

/-- C1 witness: with `J = 1` and one spawned task, the state after the
task acquires the permit is reachable and holds the bound. -/
theorem concurrency_bound_witness : countHolding [Phase.holding] ≤ 1 := by
  have hstep : PoolStep (initPool 1 1) ⟨[Phase.holding], 0⟩ :=
    PoolStep.acquire (initPool 1 1) 0 (by decide) (by decide)
  exact concurrency_bound 1 1 ⟨[Phase.holding], 0⟩ (by decide)
    (PoolReachable.step PoolReachable.init hstep)

/-- C9: in every reachable state of the fan-out phase, free permits plus
permit-holding tasks equal the capacity `J` — each task's terminal step
releases exactly one permit whatever its exit path (the `complete` step is
parametrized by the task's fetch environment, covering transport error,
non-2xx status, body-read error, write error and success alike) — and once
every task is finished the full capacity `J` is free again: no permit is
ever leaked. -/
theorem permit_release_invariant (J n : Nat) (s : PoolState)
    (h : PoolReachable J n s) :
    s.permits + countHolding s.tasks = J ∧
    ((∀ p ∈ s.tasks, p = Phase.finished) → s.permits = J) := by
  refine ⟨pool_invariant h, fun hall => ?_⟩
  have hinv := pool_invariant h
  have hz := countHolding_eq_zero_of_finished s.tasks hall
  omega

/-- C9 witness: with `J = 1` and one task driven through acquire and a
transport-error completion, the terminal state again has the full permit
free. -/
theorem permit_release_invariant_witness :
    (PoolState.mk [Phase.finished] 1).permits = 1 := by
  have hstep1 : PoolStep (initPool 1 1) ⟨[Phase.holding], 0⟩ :=
    PoolStep.acquire (initPool 1 1) 0 (by decide) (by decide)
  have hstep2 : PoolStep ⟨[Phase.holding], 0⟩ ⟨[Phase.finished], 1⟩ :=
    PoolStep.complete ⟨[Phase.holding], 0⟩ 0 ⟨.transportErr, true⟩ (by decide)
  exact (permit_release_invariant 1 1 ⟨[Phase.finished], 1⟩
    (PoolReachable.step (PoolReachable.step PoolReachable.init hstep1) hstep2)).2
    (by decide)

end NyseLogos
